import Mathlib

/-!
Verification of jackmeter (`src/jack_meter.c`), a console peak meter for JACK.

The C code is shallowly embedded: C `float` values become `ℚ` (every float
operation appearing on the verified paths is exact, so the rational model
agrees with IEEE single precision there), C `int`/`long` become `ℤ`,
C `unsigned int` becomes `ℕ` with explicit `% 2 ^ 32`, and the global arrays
`peak`, `dpeak`, `dtime` become functions out of `ℕ`.  The C cast `(int)` of a
nonnegative-or-negative float truncates toward zero, modelled by `ratTrunc`.
-/

/-- Truncation toward zero, the semantics of C's `(int)`/`(long)` cast applied
to a real value: floor for nonnegative arguments, ceiling (`-⌊-q⌋`) for
negative ones.  Written with `Rat.floor` so that it evaluates by kernel
reduction; `ratTrunc_eq` below restates it with `⌊⌋`/`⌈⌉`. -/
def ratTrunc (q : ℚ) : ℤ :=
  if 0 ≤ q then q.floor else -(-q).floor

/-- The meter deflection percentage computed by `iec_scale`
(`src/jack_meter.c:113-132`): a piecewise-linear IEC 60268-10 approximation.
Each branch mirrors one arm of the C `if`/`else if` chain. -/
def def_pct (db : ℚ) : ℚ :=
  if db < -70 then 0
  else if db < -60 then (db + 70) * 0.25
  else if db < -50 then (db + 60) * 0.5 + 2.5
  else if db < -40 then (db + 50) * 0.75 + 7.5
  else if db < -30 then (db + 40) * 1.5 + 15
  else if db < -20 then (db + 30) * 2 + 30
  else if db < 0 then (db + 20) * 2.5 + 50
  else 100

/-- `iec_scale` (`src/jack_meter.c:113-135`): scales the deflection percentage
to `size` cells and truncates to an integer, `(int)((def / 100.0f) * size)`. -/
def iec_scale (db : ℚ) (size : ℤ) : ℤ :=
  ratTrunc (def_pct db / 100 * size)

/-- `MAX_CHANNELS` (`src/jack_meter.c:40`). -/
def MAX_CHANNELS : ℕ := 16

/-- `read_peak` (`src/jack_meter.c:67-73`): out-of-range indices return `0`
without touching the array; otherwise the entry is returned and reset to `0`.
The result is the returned float paired with the updated `peak` array. -/
def read_peak (inPortNumber : ℕ) (peak : ℕ → ℚ) : ℚ × (ℕ → ℚ) :=
  if MAX_CHANNELS ≤ inPortNumber then (0, peak)
  else (peak inPortNumber, fun j => if j = inPortNumber then 0 else peak j)

/-- The inner frame loop of `process_peak` (`src/jack_meter.c:97-102`) for one
channel: for each sample, `s = fabs(in[i]); if (s > peak[ch]) peak[ch] = s`. -/
def process_channel (ch : ℕ) (buf : List ℚ) (peak : ℕ → ℚ) : ℕ → ℚ :=
  buf.foldl
    (fun p x => fun j => if j = ch then (if |x| > p ch then |x| else p ch) else p j)
    peak

/-- One invocation of the JACK callback `process_peak`
(`src/jack_meter.c:80-106`): iterate the ports `0 ≤ ch < channels`, skipping
unregistered (`NULL`, here `none`) ports, folding each port's buffer into the
`peak` array. -/
def process_peak (channels : ℕ) (ports : ℕ → Option (List ℚ)) (peak : ℕ → ℚ) :
    ℕ → ℚ :=
  (List.range channels).foldl
    (fun p ch =>
      match ports ch with
      | none => p
      | some buf => process_channel ch buf p)
    peak

/-- One call to `process_peak`, described by the channel count in effect and
the buffers the host supplied (`none` for a port not yet registered). -/
structure PeakCall where
  channels : ℕ
  ports : ℕ → Option (List ℚ)

/-- Run a sequence of `process_peak` invocations against the `peak` array. -/
def run_calls (calls : List PeakCall) (peak : ℕ → ℚ) : ℕ → ℚ :=
  calls.foldl (fun p c => process_peak c.channels c.ports p) peak

/-- The samples a sequence of `process_peak` calls records for channel `i`:
the concatenation of the buffers handed to port `i` while `i < channels`. -/
def recorded_for (i : ℕ) : List PeakCall → List ℚ
  | [] => []
  | c :: cs => (if i < c.channels then (c.ports i).getD [] else []) ++ recorded_for i cs

/-- Fold of `max` with absolute values, starting from `a`. -/
def foldMax (a : ℚ) (l : List ℚ) : ℚ :=
  l.foldl (fun m x => max m |x|) a

/-- The decay/hold update of `display_meter` (`src/jack_meter.c:283-288`) on
the pair `(dpeak, dtime)`.  Note the C source compares the pre-increment
`dtime` (`dtime[i]++ > decay_len` yields the old value) and increments `dtime`
in both arms of the `else`. -/
def decayStep (decay_len size : ℤ) (s : ℤ × ℤ) : ℤ × ℤ :=
  if size > s.1 then (size, 0)
  else if s.2 > decay_len then (size, s.2 + 1)
  else (s.1, s.2 + 1)

/-- The per-channel display state: the global arrays `dpeak` and `dtime`
(`src/jack_meter.c:55-56`). -/
structure DisplayState where
  dpeak : ℕ → ℤ
  dtime : ℕ → ℤ

/-- `display_meter` (`src/jack_meter.c:277-303`): guard against out-of-range
port numbers, update the decay state, and emit the bar (modelled as the list
of characters written to stdout: `\r`, `size-1` fills, the hold marker
section, then trailing blanks). -/
def display_meter (decay_len : ℤ) (db : ℚ) (width : ℤ) (inPortNumber : ℕ)
    (st : DisplayState) : DisplayState × List Char :=
  if MAX_CHANNELS ≤ inPortNumber then (st, [])
  else
    let size := iec_scale db width
    let s2 := decayStep decay_len size (st.dpeak inPortNumber, st.dtime inPortNumber)
    let st2 : DisplayState :=
      { dpeak := fun j => if j = inPortNumber then s2.1 else st.dpeak j
        dtime := fun j => if j = inPortNumber then s2.2 else st.dtime j }
    let bar : List Char :=
      [ '\r'] ++ List.replicate (size - 1).toNat '#' ++
        (if s2.1 = size then [ 'I']
         else [ '#'] ++ List.replicate (s2.1 - size - 1).toNat ' ' ++ [ 'I']) ++
        List.replicate (width - s2.1).toNat ' '
    (st2, bar)

/-- The mutable state touched by the SIGALRM handler `time_handler`
(`src/jack_meter.c:42-59`): `rate`, `decay_len`, `sleepTimeUs`, `slept`
(both C `unsigned int`, hence `ℕ` mod `2 ^ 32`) and the `time_to_print`
flag. -/
structure TimerState where
  rate : ℤ
  decay_len : ℤ
  sleepTimeUs : ℕ
  slept : ℕ
  time_to_print : Bool
deriving DecidableEq

/-- `time_handler` (`src/jack_meter.c:308-323`).  On a missed deadline
(`time_to_print == 1`): decrement `rate` (floor 1), recompute
`decay_len = (long)(1.6f / (1.0f / rate))` and
`sleepTimeUs = 1000000.0f / rate` (the `ualarm` re-arm is an external
side effect, not state).  Otherwise raise `rate` toward `userRate`.  Either
way the handler leaves `time_to_print` set. -/
def time_handler (userRate : ℤ) (s : TimerState) : TimerState :=
  if s.time_to_print then
    let slept2 := (s.slept + 2 ^ 32 - s.sleepTimeUs % 2 ^ 32) % 2 ^ 32
    let r0 := s.rate - 1
    let r := if r0 ≤ 0 then 1 else r0
    { rate := r
      decay_len := ratTrunc ((1.6 : ℚ) / (1 / (r : ℚ)))
      sleepTimeUs := (ratTrunc ((1000000 : ℚ) / (r : ℚ))).toNat % 2 ^ 32
      slept := slept2
      time_to_print := true }
  else
    { s with
      rate := if s.rate < userRate then s.rate + 1 else s.rate
      time_to_print := true }

/-- What the environment can deliver to one pass of the wait-for-tick loop of
`main` (`src/jack_meter.c:489-501`): the interval timer fires (SIGALRM is the
only signal the program installs a handler for, at line 392, so it is the only
source of an `EINTR` from `usleep`, and its handler sets `time_to_print`
before `usleep` returns); `usleep` completes its 999999 µs nap with no signal;
`usleep` fails with some error other than `EINTR`/`EINVAL` (the `if` chain
handles neither, so the loop re-checks its condition); or `usleep` fails with
`EINVAL` (unsupported duration). -/
inductive WaitEvent
  | timerTick
  | sleepElapsed
  | otherError
  | badDuration
deriving DecidableEq

/-- How the wait ends: the loop is left normally (a tick is in hand), or the
process terminates via `exit(1)`. -/
inductive WaitExit
  | gotTick
  | fatalExit
deriving DecidableEq

/-- The wait-for-tick loop (`src/jack_meter.c:489-501`), driven by the finite
event sequence the environment supplies: while `time_to_print == 0`, call
`usleep`; on `EINTR` (the timer fired) `break`; on `EINVAL` call `exit(1)`; on
a normal return or any other error re-enter the loop.  `none` means the events
ran out with the loop still waiting. -/
def wait_loop : Bool → List WaitEvent → Option WaitExit
  | true, _ => some .gotTick
  | false, [] => none
  | false, e :: evs =>
    match e with
    | .timerTick => some .gotTick
    | .badDuration => some .fatalExit
    | .sleepElapsed => wait_loop false evs
    | .otherError => wait_loop false evs

/-- The label-placement arithmetic of `display_scale`
(`src/jack_meter.c:259-262`): `spos = pos - slen/2`, clamped to `0` on the
left, then shifted left to `width - slen` whenever `spos + slen` would pass
`width`.  `slen` is the label's `strlen`, a natural number. -/
def label_start (pos : ℤ) (slen : ℕ) (width : ℤ) : ℤ :=
  let spos : ℤ := pos - (slen / 2 : ℕ)
  let spos2 : ℤ := if spos < 0 then 0 else spos
  if spos2 + slen > width then width - slen else spos2

/-- A single-precision dB value as this program can produce it at
`src/jack_meter.c:477`: either negative infinity (from `log10f(0)`) or a
finite value.  NaN and `+inf` cannot arise there: the argument of `log10f` is
`read_peak(i) * bias`, a finite nonnegative float times a finite positive
float. -/
inductive DbVal
  | negInf
  | fin (q : ℚ)
deriving DecidableEq

/-- `iec_scale` acting on an extended dB value.  For `-inf` the IEEE
comparison `-inf < -70.0f` is true, so the first branch of the `if` chain in
`src/jack_meter.c:116-117` runs and the deflection is `0`; a finite argument
takes the ordinary path. -/
def iec_scaleE (d : DbVal) (size : ℤ) : ℤ :=
  match d with
  | .negInf => ratTrunc ((0 : ℚ) / 100 * size)
  | .fin q => iec_scale q size

/-- The dB conversion `20.0f * log10f(x)` of `src/jack_meter.c:477`, with
`x = read_peak(i) * bias`.  The libm function `log10f` is abstracted by `lg`
on positive arguments; `log10f 0 = -inf` (IEEE 754), and `20 * -inf = -inf`.
A negative `x` cannot occur (see `DbVal`), so that case is folded into
`negInf` as well. -/
def dbOfAmp (lg : ℚ → ℚ) (x : ℚ) : DbVal :=
  if x ≤ 0 then .negInf else .fin (20 * lg x)

section

attribute [local semireducible] Rat.add Rat.sub Rat.mul Rat.inv Rat.ofScientific

theorem rat_floor_eq (q : ℚ) : q.floor = ⌊q⌋ := by
  rw [Rat.floor_def', ← Rat.floor_def]

theorem ratTrunc_eq (q : ℚ) : ratTrunc q = if 0 ≤ q then ⌊q⌋ else ⌈q⌉ := by
  unfold ratTrunc
  split_ifs with h
  · rw [rat_floor_eq]
  · rw [rat_floor_eq, Int.floor_neg, neg_neg]

theorem ratTrunc_mono {x y : ℚ} (h : x ≤ y) : ratTrunc x ≤ ratTrunc y := by
  rw [ratTrunc_eq, ratTrunc_eq]
  rcases le_or_lt 0 x with hx | hx <;> rcases le_or_lt 0 y with hy | hy
  · rw [if_pos hx, if_pos hy]
    exact Int.floor_le_floor h
  · linarith
  · rw [if_neg (not_le.mpr hx), if_pos hy]
    refine le_trans (Int.ceil_le.mpr ?_) (Int.floor_nonneg.mpr hy)
    exact_mod_cast hx.le
  · rw [if_neg (not_le.mpr hx), if_neg (not_le.mpr hy)]
    exact Int.ceil_le_ceil h

theorem ratTrunc_intCast (n : ℤ) : ratTrunc (n : ℚ) = n := by
  rw [ratTrunc_eq]
  split_ifs
  · exact Int.floor_intCast n
  · exact Int.ceil_intCast n

theorem ratTrunc_zero : ratTrunc 0 = 0 := by
  simpa using ratTrunc_intCast 0

theorem ratTrunc_nonneg {x : ℚ} (h : 0 ≤ x) : 0 ≤ ratTrunc x := by
  rw [ratTrunc_eq, if_pos h]
  exact Int.floor_nonneg.mpr h

theorem ratTrunc_le_intCast {x : ℚ} {n : ℤ} (h : x ≤ (n : ℚ)) : ratTrunc x ≤ n := by
  have h2 := ratTrunc_mono h
  rwa [ratTrunc_intCast] at h2

theorem def_pct_nonneg (db : ℚ) : 0 ≤ def_pct db := by
  unfold def_pct
  split_ifs <;> linarith

theorem def_pct_le_100 (db : ℚ) : def_pct db ≤ 100 := by
  unfold def_pct
  split_ifs <;> linarith

set_option maxHeartbeats 2000000 in
theorem def_pct_mono {a b : ℚ} (h : a ≤ b) : def_pct a ≤ def_pct b := by
  unfold def_pct
  split_ifs <;> linarith

theorem def_pct_of_le_neg70 {db : ℚ} (h : db ≤ -70) : def_pct db = 0 := by
  unfold def_pct
  split_ifs <;> linarith

theorem def_pct_of_nonneg {db : ℚ} (h : 0 ≤ db) : def_pct db = 100 := by
  unfold def_pct
  split_ifs <;> linarith

theorem iec_scale_zero_of_le {db : ℚ} (w : ℤ) (h : db ≤ -70) : iec_scale db w = 0 := by
  unfold iec_scale
  rw [def_pct_of_le_neg70 h]
  norm_num [ratTrunc_zero]

theorem iec_scale_full {db : ℚ} (w : ℤ) (h : 0 ≤ db) : iec_scale db w = w := by
  unfold iec_scale
  rw [def_pct_of_nonneg h]
  have h2 : (100 : ℚ) / 100 * (w : ℚ) = (w : ℚ) := by norm_num
  rw [h2, ratTrunc_intCast]

theorem iec_scale_nonneg (db : ℚ) {w : ℤ} (hw : 0 ≤ w) : 0 ≤ iec_scale db w := by
  apply ratTrunc_nonneg
  have hw2 : (0 : ℚ) ≤ (w : ℚ) := by exact_mod_cast hw
  exact mul_nonneg (div_nonneg (def_pct_nonneg db) (by norm_num)) hw2

theorem iec_scale_le_width (db : ℚ) {w : ℤ} (hw : 0 ≤ w) : iec_scale db w ≤ w := by
  apply ratTrunc_le_intCast
  have hw2 : (0 : ℚ) ≤ (w : ℚ) := by exact_mod_cast hw
  have h1 : def_pct db / 100 ≤ 1 := by
    have h2 := def_pct_le_100 db
    linarith
  exact mul_le_of_le_one_left hw2 h1

/-- C2 counterexample: `iec_scale(-10, 79)` does not return 62.  The `-20..0`
band gives deflection `(-10 + 20) * 2.5 + 50 = 75`, and
`(int)(75/100 * 79) = (int) 59.25 = 59` (all the float operations involved
are exact, so the rational model agrees with the C float computation). -/
theorem iec_scale_m10_79_ne_62 : ¬ iec_scale (-10) 79 = 62 := by decide

/-- C2 amended: `iec_scale(-10, 79)` returns 59. -/
theorem iec_scale_m10_79_eq_59 : iec_scale (-10) 79 = 59 := by decide

/-- C5: for every width `w` and dB value `db`, `db ≤ -70` gives deflection 0,
`db ≥ 0` gives full deflection `w`, and for `w ≥ 0` the result lies in
`[0, w]`. -/
theorem iec_scale_clamp (db : ℚ) (w : ℤ) :
    (db ≤ -70 → iec_scale db w = 0) ∧
    (0 ≤ db → iec_scale db w = w) ∧
    (0 ≤ w → 0 ≤ iec_scale db w ∧ iec_scale db w ≤ w) :=
  ⟨fun h => iec_scale_zero_of_le w h,
   fun h => iec_scale_full w h,
   fun hw => ⟨iec_scale_nonneg db hw, iec_scale_le_width db hw⟩⟩

/-- C5 witness: the clamping behavior at concrete inputs `db = -80, 3, -33`
with `w = 7`. -/
theorem iec_scale_clamp_witness :
    iec_scale (-80) 7 = 0 ∧ iec_scale 3 7 = 7 ∧
      (0 ≤ iec_scale (-33) 7 ∧ iec_scale (-33) 7 ≤ 7) :=
  ⟨(iec_scale_clamp (-80) 7).1 (by norm_num),
   (iec_scale_clamp 3 7).2.1 (by norm_num),
   (iec_scale_clamp (-33) 7).2.2 (by norm_num)⟩

/-- C6 counterexample: monotonicity in the dB argument fails for a negative
width.  With `-10 ≤ 0` but `w = -100`, the code yields
`iec_scale(-10, -100) = -75` and `iec_scale(0, -100) = -100`, so the value
decreases. -/
theorem iec_scale_db_mono_fails_neg_width :
    ¬ iec_scale (-10) (-100) ≤ iec_scale 0 (-100) := by decide

/-- C6 amended: `iec_scale` is monotone non-decreasing in `db` for every fixed
nonnegative width, and monotone non-decreasing in the width for fixed `db`
(for `0 ≤ w1 ≤ w2`). -/
theorem iec_scale_mono :
    (∀ (db1 db2 : ℚ) (w : ℤ), 0 ≤ w → db1 ≤ db2 →
      iec_scale db1 w ≤ iec_scale db2 w) ∧
    (∀ (db : ℚ) (w1 w2 : ℤ), 0 ≤ w1 → w1 ≤ w2 →
      iec_scale db w1 ≤ iec_scale db w2) := by
  constructor
  · intro db1 db2 w hw h
    apply ratTrunc_mono
    have hw2 : (0 : ℚ) ≤ (w : ℚ) := by exact_mod_cast hw
    have h1 : def_pct db1 / 100 ≤ def_pct db2 / 100 := by
      have h2 := def_pct_mono h
      linarith
    exact mul_le_mul_of_nonneg_right h1 hw2
  · intro db w1 w2 hw1 h
    apply ratTrunc_mono
    have h1 : (w1 : ℚ) ≤ (w2 : ℚ) := by exact_mod_cast h
    exact mul_le_mul_of_nonneg_left h1 (div_nonneg (def_pct_nonneg db) (by norm_num))

/-- C6 witness: monotonicity at concrete inputs. -/
theorem iec_scale_mono_witness :
    iec_scale (-40) 79 ≤ iec_scale (-10) 79 ∧ iec_scale (-10) 40 ≤ iec_scale (-10) 79 :=
  ⟨iec_scale_mono.1 (-40) (-10) 79 (by norm_num) (by norm_num),
   iec_scale_mono.2 (-10) 40 79 (by norm_num) (by norm_num)⟩

/-- C7: an amplitude of exactly 0 (times any bias) produces the dB value
`-inf`, and `iec_scale` maps it — and every finite dB value below -70 — to 0
deflection instead of propagating a non-finite value. -/
theorem zero_peak_scale (bias : ℚ) (lg : ℚ → ℚ) (w : ℤ) :
    dbOfAmp lg (0 * bias) = DbVal.negInf ∧
    iec_scaleE (dbOfAmp lg (0 * bias)) w = 0 ∧
    ∀ q : ℚ, q < -70 → iec_scaleE (DbVal.fin q) w = 0 := by
  have h0 : dbOfAmp lg (0 * bias) = DbVal.negInf := by
    unfold dbOfAmp
    rw [if_pos (by simp : (0 : ℚ) * bias ≤ 0)]
  refine ⟨h0, ?_, ?_⟩
  · rw [h0]
    show ratTrunc ((0 : ℚ) / 100 * w) = 0
    norm_num [ratTrunc_zero]
  · intro q hq
    exact iec_scale_zero_of_le w hq.le

/-- C7 witness: at bias 2, width 79 and the finite value -75. -/
theorem zero_peak_scale_witness :
    dbOfAmp (fun q => q) (0 * 2) = DbVal.negInf ∧
    iec_scaleE (dbOfAmp (fun q => q) (0 * 2)) 79 = 0 ∧
    iec_scaleE (DbVal.fin (-75)) 79 = 0 :=
  ⟨(zero_peak_scale 2 (fun q => q) 79).1,
   (zero_peak_scale 2 (fun q => q) 79).2.1,
   (zero_peak_scale 2 (fun q => q) 79).2.2 (-75) (by norm_num)⟩

theorem decayStep_hold {dl w p t : ℤ} (hw : w ≤ p) (ht : t ≤ dl) :
    decayStep dl w (p, t) = (p, t + 1) := by
  unfold decayStep
  rw [if_neg (not_lt.mpr hw), if_neg (not_lt.mpr ht)]

theorem decayStep_snap {dl w p t : ℤ} (hw : w ≤ p) (ht : dl < t) :
    decayStep dl w (p, t) = (w, t + 1) := by
  unfold decayStep
  rw [if_neg (not_lt.mpr hw), if_pos ht]

/-- C3 counterexample: with `dpeak = 50`, `dtime = 0`, `decay_len = 3` and
every tick supplying width 30, the held peak after four ticks is still 50,
not 30 — the claim places the snap-down one tick too early.  The C code
compares the pre-increment `dtime` (`dtime[i]++ > decay_len`), so ticks 1-4
compare 0,1,2,3 against 3 and all fail. -/
theorem decay_tick4_not_30 :
    ¬ (decayStep 3 30 (decayStep 3 30 (decayStep 3 30 (decayStep 3 30 (50, 0))))).1 = 30 := by
  decide

/-- C3 amended: with held width 50, threshold 3 ticks, `dtime = 0`, and every
subsequent tick supplying a width not exceeding 50, the held peak stays 50 on
ticks 1 through 4 and is set to the then-current width on tick 5 — the
snap-down happens on the first tick whose pre-increment `dtime` exceeds the
threshold. -/
theorem decay_snap_tick5 (w1 w2 w3 w4 w5 : ℤ)
    (h1 : w1 ≤ 50) (h2 : w2 ≤ 50) (h3 : w3 ≤ 50) (h4 : w4 ≤ 50) (h5 : w5 ≤ 50) :
    (decayStep 3 w1 (50, 0)).1 = 50 ∧
    (decayStep 3 w2 (decayStep 3 w1 (50, 0))).1 = 50 ∧
    (decayStep 3 w3 (decayStep 3 w2 (decayStep 3 w1 (50, 0)))).1 = 50 ∧
    (decayStep 3 w4 (decayStep 3 w3 (decayStep 3 w2 (decayStep 3 w1 (50, 0))))).1 = 50 ∧
    (decayStep 3 w5 (decayStep 3 w4 (decayStep 3 w3 (decayStep 3 w2
      (decayStep 3 w1 (50, 0)))))).1 = w5 := by
  have e1 : decayStep 3 w1 (50, 0) = (50, 1) := by
    rw [decayStep_hold h1 (by norm_num)]
    norm_num
  have e2 : decayStep 3 w2 (50, 1) = (50, 2) := by
    rw [decayStep_hold h2 (by norm_num)]
    norm_num
  have e3 : decayStep 3 w3 (50, 2) = (50, 3) := by
    rw [decayStep_hold h3 (by norm_num)]
    norm_num
  have e4 : decayStep 3 w4 (50, 3) = (50, 4) := by
    rw [decayStep_hold h4 (by norm_num)]
    norm_num
  have e5 : decayStep 3 w5 (50, 4) = (w5, 5) := by
    rw [decayStep_snap h5 (by norm_num)]
    norm_num
  rw [e1, e2, e3, e4, e5]
  exact ⟨rfl, rfl, rfl, rfl, rfl⟩

/-- C3 witness: the amended behavior at the concrete width 30 of the claim's
scenario. -/
theorem decay_snap_tick5_witness :
    (decayStep 3 30 (50, 0)).1 = 50 ∧
    (decayStep 3 30 (decayStep 3 30 (50, 0))).1 = 50 ∧
    (decayStep 3 30 (decayStep 3 30 (decayStep 3 30 (50, 0)))).1 = 50 ∧
    (decayStep 3 30 (decayStep 3 30 (decayStep 3 30 (decayStep 3 30 (50, 0))))).1 = 50 ∧
    (decayStep 3 30 (decayStep 3 30 (decayStep 3 30 (decayStep 3 30
      (decayStep 3 30 (50, 0)))))).1 = 30 :=
  decay_snap_tick5 30 30 30 30 30 (by norm_num) (by norm_num) (by norm_num)
    (by norm_num) (by norm_num)

/-- C4: from `rate = userRate = 8`, three consecutive firings with
`time_to_print` still set reduce `rate` 8→7→6→5 and leave
`decay_len = (long)(1.6f/(1.0f/5)) = 8`; a firing with the flag clear raises
`rate` by one while it is below `userRate` (and leaves it unchanged at
`userRate`); and `rate` stays within `[1, userRate]`.  The initial state has
`decay_len = 12` and `sleepTimeUs = 125000` as `main` computes for rate 8. -/
theorem time_handler_spec :
    ((time_handler 8 (time_handler 8 (time_handler 8 ⟨8, 12, 125000, 0, true⟩))).rate = 5 ∧
     (time_handler 8 (time_handler 8 (time_handler 8 ⟨8, 12, 125000, 0, true⟩))).decay_len = 8) ∧
    (∀ (userRate : ℤ) (s : TimerState), s.time_to_print = false →
      (time_handler userRate s).rate = if s.rate < userRate then s.rate + 1 else s.rate) ∧
    (∀ (userRate : ℤ) (s : TimerState), 1 ≤ userRate → 1 ≤ s.rate → s.rate ≤ userRate →
      1 ≤ (time_handler userRate s).rate ∧ (time_handler userRate s).rate ≤ userRate) := by
  refine ⟨by decide, ?_, ?_⟩
  · intro userRate s hs
    simp [time_handler, hs]
  · intro userRate s hu hlo hhi
    cases hb : s.time_to_print
    · simp only [time_handler, hb, Bool.false_eq_true, if_false]
      split_ifs <;> omega
    · simp only [time_handler, hb, if_true]
      split_ifs <;> omega

/-- C4 witness: a non-missed firing at rate 5 below the target 8 raises the
rate to 6, within the `[1, 8]` bounds. -/
theorem time_handler_spec_witness :
    ((time_handler 8 ⟨5, 8, 200000, 0, false⟩).rate =
      if (5 : ℤ) < 8 then (5 : ℤ) + 1 else (5 : ℤ)) ∧
    (1 ≤ (time_handler 8 ⟨5, 8, 200000, 0, false⟩).rate ∧
      (time_handler 8 ⟨5, 8, 200000, 0, false⟩).rate ≤ 8) :=
  ⟨time_handler_spec.2.1 8 ⟨5, 8, 200000, 0, false⟩ rfl,
   time_handler_spec.2.2 8 ⟨5, 8, 200000, 0, false⟩ (by norm_num) (by norm_num) (by norm_num)⟩

/-- C9: for any mark position, any label of length `slen ≥ 1` and any width
that can hold the label, the start cell `display_scale` writes the label at
equals `max(0, pos - slen/2)`, shifted left to `width - slen` exactly when it
would otherwise run past `width`; consequently the `memcpy` of `slen` bytes
stays inside the `width`-cell buffer. -/
theorem label_start_spec (pos : ℤ) (slen : ℕ) (width : ℤ)
    (hs : 1 ≤ slen) (hw : (slen : ℤ) ≤ width) :
    (0 ≤ label_start pos slen width ∧ label_start pos slen width + slen ≤ width) ∧
    label_start pos slen width =
      (if max 0 (pos - (slen / 2 : ℕ)) + slen > width then width - slen
       else max 0 (pos - (slen / 2 : ℕ))) := by
  constructor
  · simp only [label_start]
    split_ifs <;> omega
  · simp only [label_start]
    split_ifs <;> omega

/-- C9 witness: the mark at position 5 with the 3-character label `-10` on a
10-cell scale starts at cell 4 and stays in bounds. -/
theorem label_start_spec_witness :
    (0 ≤ label_start 5 3 10 ∧ label_start 5 3 10 + 3 ≤ 10) ∧
    label_start 5 3 10 =
      (if max 0 (5 - ((3 : ℕ) / 2 : ℕ)) + 3 > 10 then 10 - 3
       else max 0 (5 - ((3 : ℕ) / 2 : ℕ))) :=
  label_start_spec 5 3 10 (by norm_num) (by norm_num)

/-- C10: for every port index `i ≥ MAX_CHANNELS`, `read_peak(i)` returns 0
and leaves the `peak` array untouched, and `display_meter` returns
immediately, leaving `dpeak`/`dtime` unchanged and writing nothing. -/
theorem out_of_range_guards (i : ℕ) (hi : MAX_CHANNELS ≤ i) :
    (∀ peak : ℕ → ℚ, read_peak i peak = (0, peak)) ∧
    (∀ (dl : ℤ) (db : ℚ) (w : ℤ) (st : DisplayState),
      display_meter dl db w i st = (st, [])) := by
  constructor
  · intro peak
    unfold read_peak
    rw [if_pos hi]
  · intro dl db w st
    unfold display_meter
    rw [if_pos hi]

theorem wait_loop_retry_skip {pre : List WaitEvent}
    (h : ∀ e ∈ pre, e = WaitEvent.sleepElapsed ∨ e = WaitEvent.otherError)
    (rest : List WaitEvent) :
    wait_loop false (pre ++ rest) = wait_loop false rest := by
  induction pre with
  | nil => rfl
  | cons e evs ih =>
    have htail : ∀ x ∈ evs, x = WaitEvent.sleepElapsed ∨ x = WaitEvent.otherError :=
      fun x hx => h x (List.mem_cons_of_mem _ hx)
    rcases h e (List.mem_cons_self e evs) with he | he <;> subst he <;>
      simpa only [List.cons_append, wait_loop] using ih htail

theorem wait_loop_fatal_mem {evs : List WaitEvent}
    (h : wait_loop false evs = some WaitExit.fatalExit) : WaitEvent.badDuration ∈ evs := by
  induction evs with
  | nil => simp [wait_loop] at h
  | cons e evs ih =>
    cases e with
    | timerTick => simp [wait_loop] at h
    | badDuration => exact List.mem_cons_self _ _
    | sleepElapsed => exact List.mem_cons_of_mem _ (ih (by simpa [wait_loop] using h))
    | otherError => exact List.mem_cons_of_mem _ (ih (by simpa [wait_loop] using h))

/-- C8: the wait-for-tick loop ends the wait exactly on a timer tick; any
string of non-tick wakeups (the 999 ms nap elapsing, or a `usleep` error
other than `EINTR`/`EINVAL`) leaves it waiting (re-entering the wait, neither
treated as the tick nor as an error); `EINVAL` terminates the process; and a
fatal termination can only be caused by an `EINVAL` event. -/
theorem wait_loop_spec :
    (∀ (pre rest : List WaitEvent),
      (∀ e ∈ pre, e = WaitEvent.sleepElapsed ∨ e = WaitEvent.otherError) →
      wait_loop false (pre ++ WaitEvent.timerTick :: rest) = some WaitExit.gotTick) ∧
    (∀ pre : List WaitEvent,
      (∀ e ∈ pre, e = WaitEvent.sleepElapsed ∨ e = WaitEvent.otherError) →
      wait_loop false pre = none) ∧
    (∀ (pre rest : List WaitEvent),
      (∀ e ∈ pre, e = WaitEvent.sleepElapsed ∨ e = WaitEvent.otherError) →
      wait_loop false (pre ++ WaitEvent.badDuration :: rest) = some WaitExit.fatalExit) ∧
    (∀ evs : List WaitEvent,
      wait_loop false evs = some WaitExit.fatalExit → WaitEvent.badDuration ∈ evs) := by
  refine ⟨fun pre rest h => ?_, fun pre h => ?_, fun pre rest h => ?_,
    fun evs h => wait_loop_fatal_mem h⟩
  · rw [wait_loop_retry_skip h]
    rfl
  · simpa using wait_loop_retry_skip h []
  · rw [wait_loop_retry_skip h]
    rfl

/-- C8 witness: a nap timeout and a stray error are retried; the tick ends
the wait; `EINVAL` is fatal and is the only fatal cause. -/
theorem wait_loop_spec_witness :
    wait_loop false ([WaitEvent.sleepElapsed, WaitEvent.otherError] ++
      WaitEvent.timerTick :: []) = some WaitExit.gotTick ∧
    wait_loop false [WaitEvent.sleepElapsed, WaitEvent.otherError] = none ∧
    wait_loop false ([WaitEvent.sleepElapsed] ++ WaitEvent.badDuration :: []) =
      some WaitExit.fatalExit ∧
    WaitEvent.badDuration ∈ [WaitEvent.sleepElapsed, WaitEvent.badDuration] :=
  ⟨wait_loop_spec.1 [WaitEvent.sleepElapsed, WaitEvent.otherError] [] (by decide),
   wait_loop_spec.2.1 [WaitEvent.sleepElapsed, WaitEvent.otherError] (by decide),
   wait_loop_spec.2.2.1 [WaitEvent.sleepElapsed] [] (by decide),
   wait_loop_spec.2.2.2 [WaitEvent.sleepElapsed, WaitEvent.badDuration] (by decide)⟩

theorem read_peak_in_range {i : ℕ} (hi : i < MAX_CHANNELS) (p : ℕ → ℚ) :
    read_peak i p = (p i, fun j => if j = i then 0 else p j) := by
  unfold read_peak
  rw [if_neg (not_le.mpr hi)]

theorem process_channel_other {ch j : ℕ} (hne : j ≠ ch) (buf : List ℚ) (p : ℕ → ℚ) :
    process_channel ch buf p j = p j := by
  induction buf generalizing p with
  | nil => rfl
  | cons x xs ih =>
    have h1 : process_channel ch (x :: xs) p = process_channel ch xs
        (fun j => if j = ch then (if |x| > p ch then |x| else p ch) else p j) := rfl
    rw [h1, ih]
    simp [hne]

theorem process_channel_self (ch : ℕ) (buf : List ℚ) (p : ℕ → ℚ) :
    process_channel ch buf p ch = foldMax (p ch) buf := by
  induction buf generalizing p with
  | nil => rfl
  | cons x xs ih =>
    have h1 : process_channel ch (x :: xs) p = process_channel ch xs
        (fun j => if j = ch then (if |x| > p ch then |x| else p ch) else p j) := rfl
    have h2 : foldMax (p ch) (x :: xs) = foldMax (max (p ch) |x|) xs := rfl
    rw [h1, ih, h2]
    congr 1
    by_cases h : |x| > p ch
    · simp [h, max_eq_right h.le]
    · simp [h, max_eq_left (not_lt.mp h)]

theorem process_peak_apply (channels : ℕ) (ports : ℕ → Option (List ℚ)) (p : ℕ → ℚ)
    (i : ℕ) :
    process_peak channels ports p i =
      if i < channels then foldMax (p i) ((ports i).getD []) else p i := by
  induction channels with
  | zero => simp [process_peak]
  | succ n ih =>
    have hstep : process_peak (n + 1) ports p =
        (match ports n with
         | none => process_peak n ports p
         | some buf => process_channel n buf (process_peak n ports p)) := by
      unfold process_peak
      rw [List.range_succ, List.foldl_append]
      rfl
    rw [hstep]
    rcases lt_trichotomy i n with hlt | heq | hgt
    · cases hp : ports n with
      | none =>
        show process_peak n ports p i = _
        rw [ih, if_pos hlt, if_pos (by omega)]
      | some buf =>
        show process_channel n buf (process_peak n ports p) i = _
        rw [process_channel_other (show i ≠ n by omega) buf (process_peak n ports p), ih,
          if_pos hlt, if_pos (by omega)]
    · subst heq
      cases hp : ports i with
      | none =>
        show process_peak i ports p i = _
        rw [ih, if_neg (lt_irrefl i), if_pos (Nat.lt_succ_self i)]
        rfl
      | some buf =>
        show process_channel i buf (process_peak i ports p) i = _
        rw [process_channel_self, ih, if_neg (lt_irrefl i), if_pos (Nat.lt_succ_self i)]
        rfl
    · cases hp : ports n with
      | none =>
        show process_peak n ports p i = _
        rw [ih, if_neg (by omega), if_neg (by omega)]
      | some buf =>
        show process_channel n buf (process_peak n ports p) i = _
        rw [process_channel_other (show i ≠ n by omega) buf (process_peak n ports p), ih,
          if_neg (by omega), if_neg (by omega)]

theorem foldMax_append (a : ℚ) (l1 l2 : List ℚ) :
    foldMax a (l1 ++ l2) = foldMax (foldMax a l1) l2 := by
  simp [foldMax, List.foldl_append]

theorem run_calls_apply (calls : List PeakCall) (p : ℕ → ℚ) (i : ℕ) :
    run_calls calls p i = foldMax (p i) (recorded_for i calls) := by
  induction calls generalizing p with
  | nil => rfl
  | cons c cs ih =>
    have h1 : run_calls (c :: cs) p = run_calls cs (process_peak c.channels c.ports p) := rfl
    rw [h1, ih, process_peak_apply, recorded_for, foldMax_append]
    congr 1
    split_ifs
    · rfl
    · rfl

/-- C1: for a channel `i < MAX_CHANNELS`, after a first `read_peak(i)` (which
resets the entry to 0, discarding any residual) and any sequence of
`process_peak` calls, the second `read_peak(i)` returns the maximum of the
absolute values of the samples recorded for channel `i` (folded from the
residual 0), resets `peak[i]` to 0, and returns 0 when no samples were
recorded in between. -/
theorem read_peak_spec (i : ℕ) (hi : i < MAX_CHANNELS) (peak0 : ℕ → ℚ)
    (calls : List PeakCall) :
    (read_peak i (run_calls calls (read_peak i peak0).2)).1 =
      foldMax 0 (recorded_for i calls) ∧
    (read_peak i (run_calls calls (read_peak i peak0).2)).2 i = 0 ∧
    (recorded_for i calls = [] →
      (read_peak i (run_calls calls (read_peak i peak0).2)).1 = 0) := by
  simp only [read_peak_in_range hi, run_calls_apply]
  refine ⟨by simp, by simp, fun h => by simp [h, foldMax]⟩

/-- C1 witness: channel 0 with residual 5 before the first read and one
callback recording samples 3 and -4. -/
theorem read_peak_spec_witness :
    (read_peak 0 (run_calls [⟨1, fun _ => some [3, -4]⟩]
        (read_peak 0 (fun _ => 5)).2)).1 =
      foldMax 0 (recorded_for 0 [⟨1, fun _ => some [3, -4]⟩]) ∧
    (read_peak 0 (run_calls [⟨1, fun _ => some [3, -4]⟩]
        (read_peak 0 (fun _ => 5)).2)).2 0 = 0 ∧
    (recorded_for 0 [⟨1, fun _ => some [3, -4]⟩] = [] →
      (read_peak 0 (run_calls [⟨1, fun _ => some [3, -4]⟩]
        (read_peak 0 (fun _ => 5)).2)).1 = 0) :=
  read_peak_spec 0 (by decide) (fun _ => 5) [⟨1, fun _ => some [3, -4]⟩]

/-- C10 witness: index 16 (= `MAX_CHANNELS`) is guarded. -/
theorem out_of_range_guards_witness :
    read_peak 16 (fun _ => 1) = ((0 : ℚ), fun _ => (1 : ℚ)) ∧
    display_meter 12 0 79 16 ⟨fun _ => 0, fun _ => 0⟩ = (⟨fun _ => 0, fun _ => 0⟩, []) :=
  ⟨(out_of_range_guards 16 (by decide)).1 (fun _ => 1),
   (out_of_range_guards 16 (by decide)).2 12 0 79 ⟨fun _ => 0, fun _ => 0⟩⟩

end
